import Mathlib

/-!
Verification of the Interview Conductor specification against the repository.

The repository ships a React frontend (`src/frontend`) together with HTTP
utility wrappers (`connectionPool.js`, `api.js`).  The Conductor core itself
(session state machine, topic selector, transition validator) lives in a
Python backend that is not part of `src/`; only its documentation and its
frontend callers are present.  Definitions for that core are therefore
modelled from the specification text, as marked in their doc comments.
The connection-pool and api wrappers are embedded from the JavaScript
source directly.
-/

namespace Conductor

/-- Modelled from the spec: the four per-turn actions of the data model
(section 3, Turn). -/
inductive Action where
  | CHALLENGE
  | DEEPEN
  | TRANSITION
  | CONCEDE_AND_PIVOT
deriving DecidableEq, Repr

/-- Modelled from the spec: the interview phases (section 3, Session). -/
inductive Phase where
  | not_started
  | introduction
  | questioning
  | closing_qna
  | completed
deriving DecidableEq, Repr

/-- Modelled from the spec: error taxonomy of section 7 (the store-level
`SessionNotFound` is omitted because every operation here acts on a
session value already in hand). -/
inductive ConductorError where
  | InvalidTransition
  | CatalogExhaustedPrematurely
deriving DecidableEq, Repr

/-- Modelled from the spec: a Topic of the catalog (section 3). -/
structure Topic where
  id : String
  category : String
  priorityRank : Nat
  seedText : String
deriving DecidableEq, Repr

/-- Modelled from the spec: the external judgment collaborator's structured
decision (section 6); the topic hint is advisory and never consulted by the
machine below, mirroring the MUST NOT override requirement. -/
structure ConductorDecision where
  action : Action
  suggestedTopicHint : Option String := none
deriving DecidableEq, Repr

/-- One candidate turn as seen by the state machine: the external decision
(`none` when the judgment call failed or was unparseable) and whether the
candidate signalled being done during closing Q&A. -/
structure TurnInput where
  decision : Option ConductorDecision
  doneSignal : Bool
deriving DecidableEq, Repr

/-- Configuration knobs named by the spec: the follow-up threshold
(default 2), the turn-count ceiling of section 4.4 (f), and the fixed
number of closing exchanges of section 4.4. -/
structure Config where
  minFollowUps : Nat
  maxTurns : Nat
  closingExchanges : Nat
deriving DecidableEq, Repr

/-- Modelled from the spec: per-session mutable record (section 3).
`visited` is kept in visit order, which both represents the set and
remembers the most recently visited topic for the diversity heuristic. -/
structure Session where
  catalog : List Topic
  visited : List String
  currentTopicId : Option String
  followUp : List (String × Nat)
  turnCount : Nat
  phase : Phase
  closingRemaining : Nat
deriving DecidableEq, Repr

/-- Ids of the catalog topics. -/
def catalogIds (catalog : List Topic) : List String :=
  catalog.map Topic.id

/-- Modelled from the spec: the Transition Validator (section 4.3).
If the proposed action is TRANSITION or CONCEDE_AND_PIVOT but the follow-up
count is below the threshold, demote to DEEPEN; otherwise pass through. -/
def validate (proposed : Action) (followUpCount minFollowUps : Nat) : Action :=
  match proposed with
  | Action.TRANSITION =>
      if followUpCount < minFollowUps then Action.DEEPEN else Action.TRANSITION
  | Action.CONCEDE_AND_PIVOT =>
      if followUpCount < minFollowUps then Action.DEEPEN else Action.CONCEDE_AND_PIVOT
  | a => a

/-- Whether an action leaves the current topic (TRANSITION or
CONCEDE_AND_PIVOT). -/
def transitionLike : Action → Bool
  | Action.TRANSITION => true
  | Action.CONCEDE_AND_PIVOT => true
  | _ => false

/-- Keep whichever topic has the strictly lower priority rank, preferring
the earlier one on ties (stable tie-break of section 4.2). -/
def betterTopic (best x : Topic) : Topic :=
  if x.priorityRank < best.priorityRank then x else best

/-- Lowest-priority-rank element of a list of topics, ties broken by list
order; `none` only on the empty list. -/
def pickMin : List Topic → Option Topic
  | [] => none
  | t :: ts => some (ts.foldl betterTopic t)

/-- Topics of the catalog not yet visited, in catalog order. -/
def unvisitedOf (catalog : List Topic) (visited : List String) : List Topic :=
  catalog.filter (fun t => decide (t.id ∉ visited))

/-- Category of the most recently visited topic, when it can be resolved in
the catalog. -/
def lastVisitedCategory (catalog : List Topic) (visited : List String) : Option String :=
  match visited.getLast? with
  | none => none
  | some vid =>
    match catalog.find? (fun t => t.id == vid) with
    | none => none
    | some t => some t.category

/-- Candidate pool for the selector: unvisited topics outside the most
recently visited category when any exist (diversity heuristic), otherwise
all unvisited topics (fallback of section 4.2). -/
def candidatePool (catalog : List Topic) (visited : List String) : List Topic :=
  match lastVisitedCategory catalog visited with
  | none => unvisitedOf catalog visited
  | some c =>
    if ((unvisitedOf catalog visited).filter (fun t => decide (t.category ≠ c))).isEmpty
    then unvisitedOf catalog visited
    else (unvisitedOf catalog visited).filter (fun t => decide (t.category ≠ c))

/-- Modelled from the spec: the Topic Selector (section 4.2).  Pure function
from catalog and visited set to the next topic, `none` meaning Exhausted. -/
def selectNext (catalog : List Topic) (visited : List String) : Option Topic :=
  pickMin (candidatePool catalog visited)

/-- Follow-up counter lookup; absent keys read as 0 (first visit). -/
def fuLookup (m : List (String × Nat)) (k : String) : Nat :=
  match m.find? (fun p => p.1 == k) with
  | some p => p.2
  | none => 0

/-- Follow-up counter update, replacing any previous binding of the key. -/
def fuSet (m : List (String × Nat)) (k : String) (v : Nat) : List (String × Nat) :=
  (k, v) :: m.filter (fun p => decide (p.1 ≠ k))

/-- Modelled from the spec: the mutation core of `applyTurn`
(section 4.1): increment `turnCount`; on a topic change record the new
topic as visited and current with a fresh counter, otherwise increment the
counter of the current topic. -/
def applyTurnCore (s : Session) (topicAfter : String) : Session :=
  if s.currentTopicId = some topicAfter then
    { s with turnCount := s.turnCount + 1,
             followUp := fuSet s.followUp topicAfter (fuLookup s.followUp topicAfter + 1) }
  else
    { s with turnCount := s.turnCount + 1,
             visited := if topicAfter ∈ s.visited then s.visited else s.visited ++ [topicAfter],
             currentTopicId := some topicAfter,
             followUp := fuSet s.followUp topicAfter 0 }

/-- Modelled from the spec: `applyTurn` of the Session State Store
(section 4.1), rejecting sessions already in the completed phase. -/
def applyTurn (s : Session) (topicAfter : String) : Except ConductorError Session :=
  if s.phase = Phase.completed then Except.error ConductorError.InvalidTransition
  else Except.ok (applyTurnCore s topicAfter)

/-- Follow-up counter of the current topic (0 when no current topic). -/
def followUpOfCurrent (s : Session) : Nat :=
  match s.currentTopicId with
  | some t => fuLookup s.followUp t
  | none => 0

/-- Modelled from the spec: safe default substituted when the judgment call
fails (section 4.4 failure semantics): DEEPEN below the depth threshold,
else TRANSITION. -/
def safeDefault (followUpCount minFollowUps : Nat) : Action :=
  if followUpCount < minFollowUps then Action.DEEPEN else Action.TRANSITION

/-- Proposed action of a turn: the external decision when present, else the
safe default. -/
def proposedOf (cfg : Config) (s : Session) (inp : TurnInput) : Action :=
  match inp.decision with
  | some d => d.action
  | none => safeDefault (followUpOfCurrent s) cfg.minFollowUps

/-- Effective action after the Transition Validator. -/
def effectiveOf (cfg : Config) (s : Session) (inp : TurnInput) : Action :=
  validate (proposedOf cfg s inp) (followUpOfCurrent s) cfg.minFollowUps

/-- Move a session into the closing Q&A phase with a fresh exchange
budget. -/
def toClosing (cfg : Config) (s : Session) : Session :=
  { s with phase := Phase.closing_qna, closingRemaining := cfg.closingExchanges }

/-- Modelled from the spec: one questioning turn before the ceiling guard
(section 4.4 steps a-e): validate the proposal; a transition-like effective
action consults the selector (exhaustion moves to closing), otherwise the
current topic is deepened. -/
def questioningCore (cfg : Config) (s : Session) (inp : TurnInput) : Session :=
  if transitionLike (effectiveOf cfg s inp) then
    match selectNext s.catalog s.visited with
    | none => toClosing cfg { s with turnCount := s.turnCount + 1 }
    | some t => applyTurnCore s t.id
  else
    match s.currentTopicId with
    | some c => applyTurnCore s c
    | none => { s with turnCount := s.turnCount + 1 }

/-- Modelled from the spec: one questioning turn including the turn-count
ceiling guard of section 4.4 (f). -/
def questioningStep (cfg : Config) (s : Session) (inp : TurnInput) : Session :=
  if (questioningCore cfg s inp).phase = Phase.questioning ∧
      cfg.maxTurns ≤ (questioningCore cfg s inp).turnCount
  then toClosing cfg (questioningCore cfg s inp)
  else questioningCore cfg s inp

/-- Modelled from the spec: one closing Q&A exchange (section 4.4):
complete after the fixed number of exchanges or an explicit done signal. -/
def closingStep (s : Session) (inp : TurnInput) : Session :=
  if inp.doneSignal ∨ s.closingRemaining ≤ 1 then
    { s with turnCount := s.turnCount + 1, phase := Phase.completed, closingRemaining := 0 }
  else
    { s with turnCount := s.turnCount + 1, closingRemaining := s.closingRemaining - 1 }

/-- Modelled from the spec: the Interview State Machine's handling of one
submitted candidate turn (section 4.4).  Turn submissions in `not_started`
and `completed` are rejected with `InvalidTransition`; the introduction
turn moves to questioning and selects the first topic with an empty
visited set; an empty catalog at that point is the fatal
`CatalogExhaustedPrematurely`. -/
def stepE (cfg : Config) (s : Session) (inp : TurnInput) : Except ConductorError Session :=
  match s.phase with
  | Phase.completed => Except.error ConductorError.InvalidTransition
  | Phase.not_started => Except.error ConductorError.InvalidTransition
  | Phase.introduction =>
    match selectNext s.catalog [] with
    | none => Except.error ConductorError.CatalogExhaustedPrematurely
    | some t => Except.ok { applyTurnCore s t.id with phase := Phase.questioning }
  | Phase.questioning => Except.ok (questioningStep cfg s inp)
  | Phase.closing_qna => Except.ok (closingStep s inp)

/-- Total step: a rejected submission leaves the stored session
unchanged. -/
def step (cfg : Config) (s : Session) (inp : TurnInput) : Session :=
  match stepE cfg s inp with
  | Except.ok s2 => s2
  | Except.error _ => s

/-- Run a sequence of submitted turns. -/
def runInputs (cfg : Config) (s : Session) (inps : List TurnInput) : Session :=
  inps.foldl (step cfg) s

/-- Modelled from the spec: session creation (section 3 lifecycle), phase
`not_started` to `introduction`, with empty visited set and counters. -/
def createSession (catalog : List Topic) : Session :=
  { catalog := catalog, visited := [], currentTopicId := none, followUp := [],
    turnCount := 0, phase := Phase.introduction, closingRemaining := 0 }

/-- The section 3 invariants of the data model: the visited set has no
duplicates and only catalog ids, the current topic (if any) is visited, and
all follow-up keys are visited. -/
structure Invariant (s : Session) : Prop where
  nodup : s.visited.Nodup
  subCatalog : ∀ x ∈ s.visited, x ∈ catalogIds s.catalog
  currentVisited : ∀ t, s.currentTopicId = some t → t ∈ s.visited
  fuKeys : ∀ p ∈ s.followUp, p.1 ∈ s.visited

/-- Position of a phase in the linear order of section 4.4. -/
def phaseIdx : Phase → Nat
  | Phase.not_started => 0
  | Phase.introduction => 1
  | Phase.questioning => 2
  | Phase.closing_qna => 3
  | Phase.completed => 4

/-- Scenario A topic T1 (section 8). -/
def topicT1 : Topic := { id := "T1", category := "technical", priorityRank := 1, seedText := "" }

/-- Scenario A topic T2 (section 8). -/
def topicT2 : Topic := { id := "T2", category := "technical", priorityRank := 2, seedText := "" }

/-- Scenario A topic T3 (section 8). -/
def topicT3 : Topic := { id := "T3", category := "behavioral", priorityRank := 1, seedText := "" }

/-- Scenario A catalog (section 8). -/
def catalogA : List Topic := [topicT1, topicT2, topicT3]

/-- A configuration with the default threshold 2, a generous ceiling and a
small closing budget. -/
def cfgA : Config := { minFollowUps := 2, maxTurns := 40, closingExchanges := 2 }

/-- A turn whose external decision proposes DEEPEN. -/
def inpDeepen : TurnInput :=
  { decision := some { action := Action.DEEPEN }, doneSignal := false }

/-- A closing Q&A exchange with no done signal and no decision needed. -/
def inpQna : TurnInput := { decision := none, doneSignal := false }

/-- A reachable questioning-phase session right after the first topic of the
Scenario A catalog was selected. -/
def sQues0 : Session :=
  { catalog := catalogA, visited := ["T1"], currentTopicId := some "T1",
    followUp := [("T1", 0)], turnCount := 0, phase := Phase.questioning,
    closingRemaining := 0 }

/-- A questioning-phase session over a one-topic catalog, with the single
topic current and unexplored. -/
def sQuesT1 : Session :=
  { catalog := [topicT1], visited := ["T1"], currentTopicId := some "T1",
    followUp := [("T1", 0)], turnCount := 1, phase := Phase.questioning,
    closingRemaining := 0 }

/-- A configuration whose turn ceiling (100) is far above `N * (K + 1)` for
the one-topic catalog. -/
def cfgCeil100 : Config := { minFollowUps := 2, maxTurns := 100, closingExchanges := 2 }

/-- A configuration whose turn ceiling is 1. -/
def cfgCeil1 : Config := { minFollowUps := 2, maxTurns := 1, closingExchanges := 1 }

/-- A closing-phase session with three closing exchanges remaining. -/
def sClosing3 : Session :=
  { catalog := catalogA, visited := ["T1", "T2", "T3"], currentTopicId := some "T3",
    followUp := [("T3", 2)], turnCount := 10, phase := Phase.closing_qna,
    closingRemaining := 3 }

/-- A completed (terminal) session. -/
def sDone : Session :=
  { catalog := catalogA, visited := ["T1", "T2", "T3"], currentTopicId := some "T3",
    followUp := [("T3", 1)], turnCount := 12, phase := Phase.completed,
    closingRemaining := 0 }

end Conductor

namespace Frontend

/-- Outcome of one underlying fetch attempt, as observed by the wrappers in
`src/frontend/src/utils/connectionPool.js`: a response with `response.ok`,
a response with a non-ok HTTP status (thrown as an error), or an abort by
the 15-second timeout / a network failure. -/
inductive Outcome where
  | success (r : Nat)
  | httpError (code : Nat)
  | timedOut
deriving DecidableEq, Repr

/-- `this.maxRetries = 3` of `ConnectionPool` (connectionPool.js line 9). -/
def maxRetries : Nat := 3

/-- `this.maxConnections = 5` of `ConnectionPool` (connectionPool.js
line 13). -/
def maxConnections : Nat := 5

/-- The retry loop of `ConnectionPool.executeRequest` (connectionPool.js
lines 38-78): attempts are numbered from `i`, at most `n` of them are made,
the first `success` outcome is returned, and when every attempt fails an
error is thrown. -/
def executeRequestFrom : Nat → Nat → (Nat → Outcome) → Except Unit Nat
  | 0, _, _ => Except.error ()
  | n + 1, i, f =>
    match f i with
    | Outcome.success r => Except.ok r
    | _ => executeRequestFrom n (i + 1) f

/-- `ConnectionPool.executeRequest`: up to `maxRetries` attempts starting
at attempt 0, the attempt outcomes being supplied by `f`. -/
def executeRequest (f : Nat → Outcome) : Except Unit Nat :=
  executeRequestFrom maxRetries 0 f

/-- `apiCall` of `src/frontend/src/utils/api.js` (lines 5-31): try the
connection pool; if it throws, make one direct fetch and throw when its
response is not ok; otherwise the response is returned. -/
def apiCall (pool : Nat → Outcome) (direct : Outcome) : Except Unit Nat :=
  match executeRequest pool with
  | Except.ok r => Except.ok r
  | Except.error _ =>
    match direct with
    | Outcome.success r => Except.ok r
    | _ => Except.error ()

/-- Observable effect of one `ConnectionPool.makeRequest` call
(connectionPool.js lines 19-33) on the `connectionCount` field: the count
while the request is in flight, the count after the call, and the
propagated result. -/
structure PoolCallEffect where
  duringCount : Nat
  finalCount : Nat
  result : Except Unit Nat
deriving Repr

/-- `ConnectionPool.makeRequest`: `connectionCount++` before
`executeRequest` and `connectionCount--` in a `finally` block, so the
decrement also runs when the request throws; the caller only reaches the
increment once `count < maxConnections` (the `waitForConnection` guard of
lines 21-24). -/
def makeRequest (count : Nat) (exec : Except Unit Nat) : PoolCallEffect :=
  match exec with
  | Except.ok r =>
    { duringCount := count + 1, finalCount := count + 1 - 1, result := Except.ok r }
  | Except.error e =>
    { duringCount := count + 1, finalCount := count + 1 - 1, result := Except.error e }

end Frontend

namespace Conductor

theorem betterTopic_cases (best x : Topic) :
    betterTopic best x = x ∨ betterTopic best x = best := by
  unfold betterTopic
  split
  · exact Or.inl rfl
  · exact Or.inr rfl

theorem foldl_betterTopic_mem (init : Topic) (l : List Topic) :
    l.foldl betterTopic init = init ∨ l.foldl betterTopic init ∈ l := by
  induction l generalizing init with
  | nil => exact Or.inl rfl
  | cons x xs ih =>
    rw [List.foldl_cons]
    rcases ih (betterTopic init x) with h | h
    · rcases betterTopic_cases init x with h2 | h2
      · right
        rw [h, h2]
        exact List.mem_cons_self x xs
      · left
        rw [h, h2]
    · right
      exact List.mem_cons_of_mem x h

theorem pickMin_mem {l : List Topic} {t : Topic} (h : pickMin l = some t) : t ∈ l := by
  cases l with
  | nil => exact absurd h (by simp [pickMin])
  | cons x xs =>
    have h2 : xs.foldl betterTopic x = t := by
      have := h
      unfold pickMin at this
      exact Option.some.inj this
    rcases foldl_betterTopic_mem x xs with h3 | h3
    · rw [← h2, h3]
      exact List.mem_cons_self x xs
    · rw [← h2]
      exact List.mem_cons_of_mem x h3

theorem mem_unvisitedOf {catalog : List Topic} {visited : List String} {t : Topic}
    (h : t ∈ unvisitedOf catalog visited) : t ∈ catalog ∧ t.id ∉ visited := by
  unfold unvisitedOf at h
  have h2 := List.mem_filter.mp h
  exact ⟨h2.1, of_decide_eq_true h2.2⟩

theorem candidatePool_subset {catalog : List Topic} {visited : List String} {t : Topic}
    (h : t ∈ candidatePool catalog visited) : t ∈ unvisitedOf catalog visited := by
  unfold candidatePool at h
  split at h
  · exact h
  · split at h
    · exact h
    · exact (List.mem_filter.mp h).1

theorem selectNext_mem {catalog : List Topic} {visited : List String} {t : Topic}
    (h : selectNext catalog visited = some t) : t ∈ catalog ∧ t.id ∉ visited :=
  mem_unvisitedOf (candidatePool_subset (pickMin_mem h))

theorem mem_fuSet {m : List (String × Nat)} {k : String} {v : Nat} {p : String × Nat}
    (h : p ∈ fuSet m k v) : p.1 = k ∨ p ∈ m := by
  unfold fuSet at h
  rcases List.mem_cons.mp h with h | h
  · left
    rw [h]
  · right
    exact (List.mem_filter.mp h).1

theorem nodup_append_single {l : List String} {a : String} (h : l.Nodup) (ha : a ∉ l) :
    (l ++ [a]).Nodup := by
  rw [List.nodup_append]
  refine ⟨h, List.nodup_singleton a, ?_⟩
  intro x hx hx2
  rw [List.mem_singleton.mp hx2] at hx
  exact ha hx

theorem applyTurnCore_phase (s : Session) (a : String) :
    (applyTurnCore s a).phase = s.phase := by
  unfold applyTurnCore
  split
  · rfl
  · rfl

theorem applyTurnCore_catalog (s : Session) (a : String) :
    (applyTurnCore s a).catalog = s.catalog := by
  unfold applyTurnCore
  split
  · rfl
  · rfl

theorem applyTurnCore_turnCount (s : Session) (a : String) :
    (applyTurnCore s a).turnCount = s.turnCount + 1 := by
  unfold applyTurnCore
  split
  · rfl
  · rfl

theorem applyTurnCore_current (s : Session) (a : String) :
    (applyTurnCore s a).currentTopicId = some a := by
  unfold applyTurnCore
  split
  · rename_i h
    exact h
  · rfl

theorem applyTurnCore_followUp (s : Session) (a : String) :
    ∃ v, (applyTurnCore s a).followUp = fuSet s.followUp a v := by
  unfold applyTurnCore
  split
  · exact ⟨fuLookup s.followUp a + 1, rfl⟩
  · exact ⟨0, rfl⟩

theorem applyTurnCore_visited (s : Session) (a : String) :
    ((applyTurnCore s a).visited = s.visited ∧ (s.currentTopicId = some a ∨ a ∈ s.visited)) ∨
    (a ∉ s.visited ∧ (applyTurnCore s a).visited = s.visited ++ [a]) := by
  unfold applyTurnCore
  split
  · rename_i h
    exact Or.inl ⟨rfl, Or.inl h⟩
  · by_cases hv : a ∈ s.visited
    · exact Or.inl ⟨by simp [hv], Or.inr hv⟩
    · exact Or.inr ⟨hv, by simp [hv]⟩

theorem applyTurnCore_visited_extend (s : Session) (a : String) :
    ∃ tl, (applyTurnCore s a).visited = s.visited ++ tl := by
  rcases applyTurnCore_visited s a with ⟨h, _⟩ | ⟨_, h⟩
  · exact ⟨[], by rw [h, List.append_nil]⟩
  · exact ⟨[a], h⟩

theorem applyTurnCore_invariant {s : Session} {a : String}
    (hs : Invariant s) (ha : a ∈ catalogIds s.catalog) :
    Invariant (applyTurnCore s a) := by
  obtain ⟨hnd, hsub, hcur, hfu⟩ := hs
  have hcat := applyTurnCore_catalog s a
  have hcv := applyTurnCore_current s a
  obtain ⟨v, hfv⟩ := applyTurnCore_followUp s a
  rcases applyTurnCore_visited s a with ⟨hveq, hin⟩ | ⟨hnv, hveq⟩
  · have hav : a ∈ s.visited := by
      rcases hin with h | h
      · exact hcur a h
      · exact h
    refine ⟨?_, ?_, ?_, ?_⟩
    · rw [hveq]
      exact hnd
    · intro x hx
      rw [hveq] at hx
      rw [hcat]
      exact hsub x hx
    · intro t ht
      rw [hcv] at ht
      rw [hveq, ← Option.some.inj ht]
      exact hav
    · intro p hp
      rw [hfv] at hp
      rw [hveq]
      rcases mem_fuSet hp with h | h
      · rw [h]
        exact hav
      · exact hfu p h
  · refine ⟨?_, ?_, ?_, ?_⟩
    · rw [hveq]
      exact nodup_append_single hnd hnv
    · intro x hx
      rw [hveq] at hx
      rw [hcat]
      rcases List.mem_append.mp hx with h | h
      · exact hsub x h
      · rw [List.mem_singleton.mp h]
        exact ha
    · intro t ht
      rw [hcv] at ht
      rw [hveq, ← Option.some.inj ht]
      exact List.mem_append_right _ (List.mem_singleton.mpr rfl)
    · intro p hp
      rw [hfv] at hp
      rw [hveq]
      rcases mem_fuSet hp with h | h
      · rw [h]
        exact List.mem_append_right _ (List.mem_singleton.mpr rfl)
      · exact List.mem_append_left _ (hfu p h)

/-- C1: the Transition Validator demotes premature TRANSITION and
CONCEDE_AND_PIVOT proposals to DEEPEN and passes everything else through:
`validate(TRANSITION, c, 2)` is DEEPEN for `c < 2` and TRANSITION for
`c >= 2`; generally a transition-like proposal below the threshold becomes
DEEPEN and any other case is returned unchanged. -/
theorem claim_C1_validator_gate :
    (∀ c, c < 2 → validate Action.TRANSITION c 2 = Action.DEEPEN) ∧
    (∀ c, 2 ≤ c → validate Action.TRANSITION c 2 = Action.TRANSITION) ∧
    (∀ a c m, transitionLike a = true → c < m → validate a c m = Action.DEEPEN) ∧
    (∀ a c m, transitionLike a = true → m ≤ c → validate a c m = a) ∧
    (∀ a c m, transitionLike a = false → validate a c m = a) := by
  refine ⟨?_, ?_, ?_, ?_, ?_⟩
  · intro c h
    simp [validate, h]
  · intro c h
    simp [validate, Nat.not_lt.mpr h]
  · intro a c m ht h
    cases a <;> simp_all [validate, transitionLike]
  · intro a c m ht h
    cases a <;> simp_all [validate, transitionLike, Nat.not_lt.mpr h]
  · intro a c m ht
    cases a <;> simp_all [validate, transitionLike]

/-- Witness for C1 at concrete inputs: one demoted and one passed-through
call. -/
theorem claim_C1_witness :
    validate Action.TRANSITION 1 2 = Action.DEEPEN ∧
    validate Action.TRANSITION 2 2 = Action.TRANSITION :=
  ⟨claim_C1_validator_gate.1 1 (by decide), claim_C1_validator_gate.2.1 2 (by decide)⟩

/-- C4: the Topic Selector is deterministic: two calls with identical
(catalog, visitedTopicIds) inputs return the same result; `selectNext` is a
pure function of exactly these two arguments, with no hidden state. -/
theorem claim_C4_selector_deterministic :
    ∀ (c1 : List Topic) (v1 : List String) (c2 : List Topic) (v2 : List String),
      c1 = c2 → v1 = v2 → selectNext c1 v1 = selectNext c2 v2 := by
  intro c1 v1 c2 v2 hc hv
  rw [hc, hv]

/-- Witness for C4: two identical calls on the Scenario A catalog agree. -/
theorem claim_C4_witness : selectNext catalogA ["T1"] = selectNext catalogA ["T1"] :=
  claim_C4_selector_deterministic catalogA ["T1"] catalogA ["T1"] rfl rfl

theorem questioningCore_turnCount (cfg : Config) (s : Session) (inp : TurnInput) :
    (questioningCore cfg s inp).turnCount = s.turnCount + 1 := by
  unfold questioningCore
  split
  · cases hsel : selectNext s.catalog s.visited with
    | none => rfl
    | some t => exact applyTurnCore_turnCount s t.id
  · cases hc : s.currentTopicId with
    | none => rfl
    | some c => exact applyTurnCore_turnCount s c

theorem questioningCore_phase (cfg : Config) (s : Session) (inp : TurnInput) :
    (questioningCore cfg s inp).phase = s.phase ∨
    (questioningCore cfg s inp).phase = Phase.closing_qna := by
  unfold questioningCore
  split
  · cases hsel : selectNext s.catalog s.visited with
    | none => exact Or.inr rfl
    | some t => exact Or.inl (applyTurnCore_phase s t.id)
  · cases hc : s.currentTopicId with
    | none => exact Or.inl rfl
    | some c => exact Or.inl (applyTurnCore_phase s c)

theorem questioningCore_catalog (cfg : Config) (s : Session) (inp : TurnInput) :
    (questioningCore cfg s inp).catalog = s.catalog := by
  unfold questioningCore
  split
  · cases hsel : selectNext s.catalog s.visited with
    | none => rfl
    | some t => exact applyTurnCore_catalog s t.id
  · cases hc : s.currentTopicId with
    | none => rfl
    | some c => exact applyTurnCore_catalog s c

theorem questioningCore_visited_extend (cfg : Config) (s : Session) (inp : TurnInput) :
    ∃ tl, (questioningCore cfg s inp).visited = s.visited ++ tl := by
  unfold questioningCore
  split
  · cases hsel : selectNext s.catalog s.visited with
    | none => exact ⟨[], (List.append_nil s.visited).symm⟩
    | some t => exact applyTurnCore_visited_extend s t.id
  · cases hc : s.currentTopicId with
    | none => exact ⟨[], (List.append_nil s.visited).symm⟩
    | some c => exact applyTurnCore_visited_extend s c

theorem questioningCore_invariant (cfg : Config) {s : Session} (inp : TurnInput)
    (hs : Invariant s) : Invariant (questioningCore cfg s inp) := by
  unfold questioningCore
  split
  · cases hsel : selectNext s.catalog s.visited with
    | none => exact ⟨hs.nodup, hs.subCatalog, hs.currentVisited, hs.fuKeys⟩
    | some t =>
      exact applyTurnCore_invariant hs (List.mem_map_of_mem Topic.id (selectNext_mem hsel).1)
  · cases hc : s.currentTopicId with
    | none =>
      refine ⟨hs.nodup, hs.subCatalog, ?_, hs.fuKeys⟩
      intro t ht
      exact Option.noConfusion ht
    | some c =>
      exact applyTurnCore_invariant hs (hs.subCatalog c (hs.currentVisited c hc))

theorem questioningStep_turnCount (cfg : Config) (s : Session) (inp : TurnInput) :
    (questioningStep cfg s inp).turnCount = s.turnCount + 1 := by
  unfold questioningStep
  split
  · exact questioningCore_turnCount cfg s inp
  · exact questioningCore_turnCount cfg s inp

theorem questioningStep_catalog (cfg : Config) (s : Session) (inp : TurnInput) :
    (questioningStep cfg s inp).catalog = s.catalog := by
  unfold questioningStep
  split
  · exact questioningCore_catalog cfg s inp
  · exact questioningCore_catalog cfg s inp

theorem questioningStep_visited_extend (cfg : Config) (s : Session) (inp : TurnInput) :
    ∃ tl, (questioningStep cfg s inp).visited = s.visited ++ tl := by
  unfold questioningStep
  split
  · exact questioningCore_visited_extend cfg s inp
  · exact questioningCore_visited_extend cfg s inp

theorem questioningStep_invariant (cfg : Config) {s : Session} (inp : TurnInput)
    (hs : Invariant s) : Invariant (questioningStep cfg s inp) := by
  have h := questioningCore_invariant cfg inp hs
  unfold questioningStep
  split
  · exact ⟨h.nodup, h.subCatalog, h.currentVisited, h.fuKeys⟩
  · exact h

theorem questioningStep_phase (cfg : Config) (s : Session) (inp : TurnInput)
    (hq : s.phase = Phase.questioning) :
    (questioningStep cfg s inp).phase = Phase.questioning ∨
    (questioningStep cfg s inp).phase = Phase.closing_qna := by
  unfold questioningStep
  split
  · exact Or.inr rfl
  · rcases questioningCore_phase cfg s inp with h | h
    · rw [h, hq]
      exact Or.inl rfl
    · exact Or.inr h

theorem questioningStep_ceiling (cfg : Config) (s : Session) (inp : TurnInput)
    (h : (questioningStep cfg s inp).phase = Phase.questioning) :
    (questioningStep cfg s inp).turnCount < cfg.maxTurns := by
  by_cases hg : (questioningCore cfg s inp).phase = Phase.questioning ∧
      cfg.maxTurns ≤ (questioningCore cfg s inp).turnCount
  · exfalso
    have h2 : (questioningStep cfg s inp).phase = Phase.closing_qna := by
      unfold questioningStep
      rw [if_pos hg]
      rfl
    rw [h] at h2
    exact Phase.noConfusion h2
  · have h2 : questioningStep cfg s inp = questioningCore cfg s inp := by
      unfold questioningStep
      rw [if_neg hg]
    rw [h2] at h ⊢
    rcases Nat.lt_or_ge (questioningCore cfg s inp).turnCount cfg.maxTurns with hlt | hge
    · exact hlt
    · exact absurd ⟨h, hge⟩ hg

theorem step_questioning_eq (cfg : Config) (s : Session) (inp : TurnInput)
    (hq : s.phase = Phase.questioning) :
    step cfg s inp = questioningStep cfg s inp := by
  unfold step stepE
  rw [hq]

theorem step_closing_eq (cfg : Config) (s : Session) (inp : TurnInput)
    (hq : s.phase = Phase.closing_qna) :
    step cfg s inp = closingStep s inp := by
  unfold step stepE
  rw [hq]

theorem step_questioning_cases (cfg : Config) (s : Session) (inp : TurnInput)
    (hq : s.phase = Phase.questioning) :
    ((step cfg s inp).phase = Phase.questioning ∧
      (step cfg s inp).turnCount = s.turnCount + 1 ∧
      (step cfg s inp).turnCount < cfg.maxTurns) ∨
    (step cfg s inp).phase = Phase.closing_qna := by
  rw [step_questioning_eq cfg s inp hq]
  rcases questioningStep_phase cfg s inp hq with h | h
  · exact Or.inl ⟨h, questioningStep_turnCount cfg s inp, questioningStep_ceiling cfg s inp h⟩
  · exact Or.inr h

theorem step_phase_mono (cfg : Config) (s : Session) (inp : TurnInput) :
    phaseIdx s.phase ≤ phaseIdx (step cfg s inp).phase := by
  cases hp : s.phase with
  | not_started =>
    have h : step cfg s inp = s := by
      unfold step stepE
      rw [hp]
    rw [h, hp]
  | completed =>
    have h : step cfg s inp = s := by
      unfold step stepE
      rw [hp]
    rw [h, hp]
  | introduction =>
    cases hsel : selectNext s.catalog [] with
    | none =>
      have h : step cfg s inp = s := by
        unfold step stepE
        rw [hp, hsel]
      rw [h, hp]
    | some t =>
      have h : (step cfg s inp).phase = Phase.questioning := by
        unfold step stepE
        rw [hp, hsel]
      rw [h]
      decide
  | questioning =>
    rcases step_questioning_cases cfg s inp hp with ⟨h, _, _⟩ | h
    · rw [h]
    · rw [h]
      decide
  | closing_qna =>
    rw [step_closing_eq cfg s inp hp]
    unfold closingStep
    split
    · show phaseIdx Phase.closing_qna ≤ phaseIdx Phase.completed
      decide
    · show phaseIdx Phase.closing_qna ≤ phaseIdx s.phase
      rw [hp]

theorem step_invariant (cfg : Config) {s : Session} (inp : TurnInput)
    (hs : Invariant s) : Invariant (step cfg s inp) := by
  cases hp : s.phase with
  | not_started =>
    have h : step cfg s inp = s := by
      unfold step stepE
      rw [hp]
    rw [h]
    exact hs
  | completed =>
    have h : step cfg s inp = s := by
      unfold step stepE
      rw [hp]
    rw [h]
    exact hs
  | introduction =>
    cases hsel : selectNext s.catalog [] with
    | none =>
      have h : step cfg s inp = s := by
        unfold step stepE
        rw [hp, hsel]
      rw [h]
      exact hs
    | some t =>
      have h : step cfg s inp = { applyTurnCore s t.id with phase := Phase.questioning } := by
        unfold step stepE
        rw [hp, hsel]
      rw [h]
      have h2 := applyTurnCore_invariant hs (List.mem_map_of_mem Topic.id (selectNext_mem hsel).1)
      exact ⟨h2.nodup, h2.subCatalog, h2.currentVisited, h2.fuKeys⟩
  | questioning =>
    rw [step_questioning_eq cfg s inp hp]
    exact questioningStep_invariant cfg inp hs
  | closing_qna =>
    rw [step_closing_eq cfg s inp hp]
    unfold closingStep
    split
    · exact ⟨hs.nodup, hs.subCatalog, hs.currentVisited, hs.fuKeys⟩
    · exact ⟨hs.nodup, hs.subCatalog, hs.currentVisited, hs.fuKeys⟩

theorem step_visited_extend (cfg : Config) (s : Session) (inp : TurnInput) :
    ∃ tl, (step cfg s inp).visited = s.visited ++ tl := by
  cases hp : s.phase with
  | not_started =>
    have h : step cfg s inp = s := by
      unfold step stepE
      rw [hp]
    rw [h]
    exact ⟨[], (List.append_nil s.visited).symm⟩
  | completed =>
    have h : step cfg s inp = s := by
      unfold step stepE
      rw [hp]
    rw [h]
    exact ⟨[], (List.append_nil s.visited).symm⟩
  | introduction =>
    cases hsel : selectNext s.catalog [] with
    | none =>
      have h : step cfg s inp = s := by
        unfold step stepE
        rw [hp, hsel]
      rw [h]
      exact ⟨[], (List.append_nil s.visited).symm⟩
    | some t =>
      have h : step cfg s inp = { applyTurnCore s t.id with phase := Phase.questioning } := by
        unfold step stepE
        rw [hp, hsel]
      rw [h]
      exact applyTurnCore_visited_extend s t.id
  | questioning =>
    rw [step_questioning_eq cfg s inp hp]
    exact questioningStep_visited_extend cfg s inp
  | closing_qna =>
    rw [step_closing_eq cfg s inp hp]
    unfold closingStep
    split
    · exact ⟨[], (List.append_nil s.visited).symm⟩
    · exact ⟨[], (List.append_nil s.visited).symm⟩

theorem step_catalog (cfg : Config) (s : Session) (inp : TurnInput) :
    (step cfg s inp).catalog = s.catalog := by
  cases hp : s.phase with
  | not_started =>
    have h : step cfg s inp = s := by
      unfold step stepE
      rw [hp]
    rw [h]
  | completed =>
    have h : step cfg s inp = s := by
      unfold step stepE
      rw [hp]
    rw [h]
  | introduction =>
    cases hsel : selectNext s.catalog [] with
    | none =>
      have h : step cfg s inp = s := by
        unfold step stepE
        rw [hp, hsel]
      rw [h]
    | some t =>
      have h : step cfg s inp = { applyTurnCore s t.id with phase := Phase.questioning } := by
        unfold step stepE
        rw [hp, hsel]
      rw [h]
      exact applyTurnCore_catalog s t.id
  | questioning =>
    rw [step_questioning_eq cfg s inp hp]
    exact questioningStep_catalog cfg s inp
  | closing_qna =>
    rw [step_closing_eq cfg s inp hp]
    unfold closingStep
    split
    · rfl
    · rfl

theorem runInputs_cons (cfg : Config) (s : Session) (i : TurnInput) (is : List TurnInput) :
    runInputs cfg s (i :: is) = runInputs cfg (step cfg s i) is := rfl

theorem runInputs_phase_mono (cfg : Config) (inps : List TurnInput) :
    ∀ s : Session, phaseIdx s.phase ≤ phaseIdx (runInputs cfg s inps).phase := by
  induction inps with
  | nil => intro s; exact Nat.le_refl _
  | cons i is ih =>
    intro s
    exact Nat.le_trans (step_phase_mono cfg s i) (ih (step cfg s i))

theorem runInputs_invariant (cfg : Config) (inps : List TurnInput) :
    ∀ s : Session, Invariant s → Invariant (runInputs cfg s inps) := by
  induction inps with
  | nil => intro s hs; exact hs
  | cons i is ih =>
    intro s hs
    exact ih (step cfg s i) (step_invariant cfg i hs)

theorem runInputs_visited_extend (cfg : Config) (inps : List TurnInput) :
    ∀ s : Session, ∃ tl, (runInputs cfg s inps).visited = s.visited ++ tl := by
  induction inps with
  | nil => intro s; exact ⟨[], (List.append_nil _).symm⟩
  | cons i is ih =>
    intro s
    obtain ⟨t1, h1⟩ := step_visited_extend cfg s i
    obtain ⟨t2, h2⟩ := ih (step cfg s i)
    refine ⟨t1 ++ t2, ?_⟩
    rw [runInputs_cons, h2, h1, List.append_assoc]

theorem runInputs_catalog (cfg : Config) (inps : List TurnInput) :
    ∀ s : Session, (runInputs cfg s inps).catalog = s.catalog := by
  induction inps with
  | nil => intro s; rfl
  | cons i is ih =>
    intro s
    rw [runInputs_cons, ih (step cfg s i), step_catalog cfg s i]

theorem createSession_invariant (catalog : List Topic) : Invariant (createSession catalog) := by
  refine ⟨?_, ?_, ?_, ?_⟩
  · exact List.nodup_nil
  · intro x hx
    exact absurd hx (List.not_mem_nil x)
  · intro t ht
    exact Option.noConfusion ht
  · intro p hp
    exact absurd hp (List.not_mem_nil p)

/-- C5: on the Scenario A catalog the selector returns T1 for the empty
visited set, and T3 once T1 is visited: the diversity heuristic skips T2
because it shares T1's category, and ties are broken by priority rank then
catalog order. -/
theorem claim_C5_scenario_a :
    selectNext catalogA [] = some topicT1 ∧ selectNext catalogA ["T1"] = some topicT3 := by
  constructor
  · rfl
  · rfl

/-- C2: over every sequence of submitted turns, the visited set only grows
(the prior visited list is a prefix of the later one, hence a subset),
never contains duplicates, never contains an id outside the session's
catalog, and the catalog itself never changes. -/
theorem claim_C2_visited_monotone (cfg : Config) (s : Session) (inps : List TurnInput)
    (hs : Invariant s) :
    (∃ tl, (runInputs cfg s inps).visited = s.visited ++ tl) ∧
    (∀ x ∈ s.visited, x ∈ (runInputs cfg s inps).visited) ∧
    (runInputs cfg s inps).visited.Nodup ∧
    (∀ x ∈ (runInputs cfg s inps).visited, x ∈ catalogIds s.catalog) ∧
    (runInputs cfg s inps).catalog = s.catalog := by
  have hinv := runInputs_invariant cfg inps s hs
  have hext := runInputs_visited_extend cfg inps s
  have hcat := runInputs_catalog cfg inps s
  refine ⟨hext, ?_, hinv.nodup, ?_, hcat⟩
  · obtain ⟨tl, h⟩ := hext
    intro x hx
    rw [h]
    exact List.mem_append_left tl hx
  · intro x hx
    have h2 := hinv.subCatalog x hx
    rw [hcat] at h2
    exact h2

/-- Witness for C2: one deepening turn from a freshly created Scenario A
session keeps the visited set duplicate-free and inside the catalog. -/
theorem claim_C2_witness :
    (runInputs cfgA (createSession catalogA) [inpDeepen]).visited.Nodup ∧
    (∀ x ∈ (runInputs cfgA (createSession catalogA) [inpDeepen]).visited,
      x ∈ catalogIds (createSession catalogA).catalog) := by
  have h := claim_C2_visited_monotone cfgA (createSession catalogA) [inpDeepen]
    (createSession_invariant catalogA)
  exact ⟨h.2.2.1, h.2.2.2.1⟩

/-- C3 counterexample: a questioning session over a one-topic catalog
(N = 1) with threshold K = 2 and a high turn ceiling is still in the
questioning phase after N * (K + 1) = 3 turns, because the external
decisions keep proposing DEEPEN and nothing ever forces a transition; the
claimed `N * (K + 1)` bound fails for arbitrary decision sequences. -/
theorem claim_C3_counterexample :
    sQuesT1.phase = Phase.questioning ∧
    sQuesT1.catalog.length = 1 ∧
    cfgCeil100.minFollowUps = 2 ∧
    (runInputs cfgCeil100 sQuesT1 (List.replicate 3 inpDeepen)).phase = Phase.questioning := by
  refine ⟨rfl, rfl, rfl, ?_⟩
  rfl

/-- C3 amended: termination of the questioning phase is guaranteed by the
configured turn-count ceiling, not by `N * (K + 1)`: from any questioning
session whose turn count is below the ceiling, after enough turns to reach
the ceiling the session is no longer in the questioning phase. -/
theorem claim_C3_amended_ceiling (cfg : Config) (inps : List TurnInput) :
    ∀ s : Session, s.phase = Phase.questioning → s.turnCount < cfg.maxTurns →
    cfg.maxTurns ≤ s.turnCount + inps.length →
    (runInputs cfg s inps).phase ≠ Phase.questioning := by
  induction inps with
  | nil =>
    intro s hq hlt hlen
    exfalso
    simp only [List.length_nil, Nat.add_zero] at hlen
    exact Nat.lt_irrefl _ (Nat.lt_of_lt_of_le hlt hlen)
  | cons i is ih =>
    intro s hq hlt hlen
    rw [runInputs_cons]
    rcases step_questioning_cases cfg s i hq with ⟨h1, h2, h3⟩ | h1
    · apply ih (step cfg s i) h1 h3
      rw [h2]
      simp only [List.length_cons] at hlen
      omega
    · intro hcontra
      have hmono := runInputs_phase_mono cfg is (step cfg s i)
      rw [h1, hcontra] at hmono
      exact absurd hmono (by decide)

/-- Witness for C3 amended: with ceiling 1, a single turn moves the
questioning session out of the questioning phase. -/
theorem claim_C3_witness : (runInputs cfgCeil1 sQues0 [inpDeepen]).phase ≠ Phase.questioning :=
  claim_C3_amended_ceiling cfgCeil1 [inpDeepen] sQues0 rfl (by decide) (by decide)

/-- C6: a session in the completed phase rejects every further turn
submission with `InvalidTransition` and is left unchanged, and `applyTurn`
on a completed session likewise returns `InvalidTransition`. -/
theorem claim_C6_completed_terminal (cfg : Config) (s : Session)
    (h : s.phase = Phase.completed) :
    (∀ inp, stepE cfg s inp = Except.error ConductorError.InvalidTransition ∧
      step cfg s inp = s) ∧
    (∀ a, applyTurn s a = Except.error ConductorError.InvalidTransition) := by
  constructor
  · intro inp
    have h1 : stepE cfg s inp = Except.error ConductorError.InvalidTransition := by
      unfold stepE
      rw [h]
    refine ⟨h1, ?_⟩
    unfold step
    rw [h1]
  · intro a
    unfold applyTurn
    rw [if_pos h]

/-- Witness for C6 at a concrete completed session. -/
theorem claim_C6_witness :
    stepE cfgA sDone inpDeepen = Except.error ConductorError.InvalidTransition ∧
    step cfgA sDone inpDeepen = sDone ∧
    applyTurn sDone "T2" = Except.error ConductorError.InvalidTransition := by
  have h := claim_C6_completed_terminal cfgA sDone rfl
  exact ⟨(h.1 inpDeepen).1, (h.1 inpDeepen).2, h.2 "T2"⟩

/-- C7 counterexample: the closing Q&A phase also remains the same phase
across more than one consecutive accepted turn (here two turns of a session
with three closing exchanges left), so questioning is not the only phase
with internal looping. -/
theorem claim_C7_counterexample :
    sClosing3.phase = Phase.closing_qna ∧
    sClosing3.phase ≠ Phase.questioning ∧
    (step cfgA sClosing3 inpQna).phase = sClosing3.phase ∧
    (step cfgA (step cfgA sClosing3 inpQna) inpQna).phase = sClosing3.phase := by
  refine ⟨rfl, by decide, rfl, rfl⟩

/-- C7 amended: the phase order is linear and forward-only (no step ever
moves the phase backwards), and the only phases an accepted turn can leave
unchanged are questioning and closing Q&A (closing only up to its
configured exchange budget). -/
theorem claim_C7_amended_forward_only :
    (∀ cfg s inp, phaseIdx s.phase ≤ phaseIdx (step cfg s inp).phase) ∧
    (∀ cfg s inp s2, stepE cfg s inp = Except.ok s2 → s2.phase = s.phase →
      s.phase = Phase.questioning ∨ s.phase = Phase.closing_qna) := by
  constructor
  · intro cfg s inp
    exact step_phase_mono cfg s inp
  · intro cfg s inp s2 hok hsame
    cases hp : s.phase with
    | not_started =>
      unfold stepE at hok
      rw [hp] at hok
      exact Except.noConfusion hok
    | completed =>
      unfold stepE at hok
      rw [hp] at hok
      exact Except.noConfusion hok
    | introduction =>
      unfold stepE at hok
      rw [hp] at hok
      cases hsel : selectNext s.catalog [] with
      | none =>
        rw [hsel] at hok
        exact Except.noConfusion hok
      | some t =>
        rw [hsel] at hok
        have h2 := Except.ok.inj hok
        rw [← h2] at hsame
        have h3 : Phase.questioning = s.phase := hsame
        rw [hp] at h3
        exact Phase.noConfusion h3
    | questioning => exact Or.inl rfl
    | closing_qna => exact Or.inr rfl

/-- Witness for C7 amended: an accepted closing Q&A turn that stays in the
closing phase is classified as questioning-or-closing. -/
theorem claim_C7_witness :
    sClosing3.phase = Phase.questioning ∨ sClosing3.phase = Phase.closing_qna :=
  claim_C7_amended_forward_only.2 cfgA sClosing3 inpQna (closingStep sClosing3 inpQna) rfl rfl

theorem sQues0_invariant : Invariant sQues0 := by
  refine ⟨?_, ?_, ?_, ?_⟩
  · decide
  · intro x hx
    rcases List.mem_singleton.mp hx with rfl
    decide
  · intro t ht
    have h2 : "T1" = t := Option.some.inj ht
    rw [← h2]
    decide
  · intro p hp
    rcases List.mem_singleton.mp hp with rfl
    decide

/-- C9: with per-session mutation serialized as the spec requires, the two
possible orders of a pair of `applyTurn` calls on a non-completed session
both succeed, preserve the data-model invariants, and produce the strictly
increasing, gap-free turn counts `t + 1` and `t + 2`. -/
theorem claim_C9_applyTurn_serialized (s : Session) (a b : String)
    (hs : Invariant s) (hph : s.phase ≠ Phase.completed)
    (ha : a ∈ catalogIds s.catalog) (hb : b ∈ catalogIds s.catalog) :
    ∃ s1 s2, applyTurn s a = Except.ok s1 ∧ applyTurn s1 b = Except.ok s2 ∧
      Invariant s1 ∧ Invariant s2 ∧
      s1.turnCount = s.turnCount + 1 ∧ s2.turnCount = s.turnCount + 2 := by
  have h1 : applyTurn s a = Except.ok (applyTurnCore s a) := by
    unfold applyTurn
    rw [if_neg hph]
  have hph1 : (applyTurnCore s a).phase ≠ Phase.completed := by
    rw [applyTurnCore_phase]
    exact hph
  have h2 : applyTurn (applyTurnCore s a) b = Except.ok (applyTurnCore (applyTurnCore s a) b) := by
    unfold applyTurn
    rw [if_neg hph1]
  have hinv1 := applyTurnCore_invariant hs ha
  have hb1 : b ∈ catalogIds (applyTurnCore s a).catalog := by
    rw [applyTurnCore_catalog]
    exact hb
  have hinv2 := applyTurnCore_invariant hinv1 hb1
  refine ⟨_, _, h1, h2, hinv1, hinv2, applyTurnCore_turnCount s a, ?_⟩
  rw [applyTurnCore_turnCount, applyTurnCore_turnCount]

/-- Witness for C9: two ordered `applyTurn` calls on the concrete
questioning session with topics T2 then T3. -/
theorem claim_C9_witness :
    ∃ s1 s2, applyTurn sQues0 "T2" = Except.ok s1 ∧ applyTurn s1 "T3" = Except.ok s2 ∧
      Invariant s1 ∧ Invariant s2 ∧
      s1.turnCount = sQues0.turnCount + 1 ∧ s2.turnCount = sQues0.turnCount + 2 :=
  claim_C9_applyTurn_serialized sQues0 "T2" "T3" sQues0_invariant (by decide) (by decide)
    (by decide)

end Conductor

namespace Frontend

theorem executeRequestFrom_congr :
    ∀ (n i : Nat) (f g : Nat → Outcome),
      (∀ j, j < n → f (i + j) = g (i + j)) →
      executeRequestFrom n i f = executeRequestFrom n i g := by
  intro n
  induction n with
  | zero => intro i f g h; rfl
  | succ m ih =>
    intro i f g h
    have h0 : f i = g i := by
      have h2 := h 0 (Nat.succ_pos m)
      simpa using h2
    have hrest : ∀ j, j < m → f (i + 1 + j) = g (i + 1 + j) := by
      intro j hj
      have h2 := h (j + 1) (Nat.succ_lt_succ hj)
      have h3 : i + (j + 1) = i + 1 + j := by omega
      rw [h3] at h2
      exact h2
    unfold executeRequestFrom
    rw [h0]
    cases g i with
    | success r => rfl
    | httpError c => exact ih (i + 1) f g hrest
    | timedOut => exact ih (i + 1) f g hrest

theorem executeRequestFrom_allFail :
    ∀ (n i : Nat) (f : Nat → Outcome),
      (∀ j r, f j ≠ Outcome.success r) →
      executeRequestFrom n i f = Except.error () := by
  intro n
  induction n with
  | zero => intro i f h; rfl
  | succ m ih =>
    intro i f h
    unfold executeRequestFrom
    cases hf : f i with
    | success r => exact absurd hf (h i r)
    | httpError c => exact ih (i + 1) f h
    | timedOut => exact ih (i + 1) f h

/-- C8 counterexample: when every pool attempt and the direct fallback fail
(here all time out), `apiCall` propagates the error to its caller instead
of substituting any safe default action; the claimed fallback to the safe
default behaviour does not exist in this code path. -/
theorem claim_C8_counterexample :
    apiCall (fun _ => Outcome.timedOut) Outcome.timedOut = Except.error () := rfl

/-- C8 amended: a failing judgment call is re-attempted synchronously at
most `maxRetries` (3) times by the connection pool, each pool attempt being
cancellable by its timeout — `executeRequest` never consults any attempt
outcome beyond the first 3 — followed by one direct fallback attempt; when
every attempt fails, the error is surfaced to the caller rather than being
replaced by a safe default. -/
theorem claim_C8_amended_bounded_retry :
    (∀ f g : Nat → Outcome, (∀ i, i < maxRetries → f i = g i) →
      executeRequest f = executeRequest g) ∧
    (∀ (pool : Nat → Outcome) (direct : Outcome),
      (∀ i r, pool i ≠ Outcome.success r) → (∀ r, direct ≠ Outcome.success r) →
      apiCall pool direct = Except.error ()) := by
  constructor
  · intro f g h
    apply executeRequestFrom_congr maxRetries 0 f g
    intro j hj
    have h2 := h j hj
    simpa using h2
  · intro pool direct hp hd
    unfold apiCall
    rw [show executeRequest pool = Except.error () from
      executeRequestFrom_allFail maxRetries 0 pool hp]
    cases hdc : direct with
    | success r => exact absurd hdc (hd r)
    | httpError c => rfl
    | timedOut => rfl

/-- Witness for C8 amended: a pool whose attempts all return HTTP 500 and
a timed-out direct fallback yield a surfaced error. -/
theorem claim_C8_witness :
    apiCall (fun _ => Outcome.httpError 500) Outcome.timedOut = Except.error () :=
  claim_C8_amended_bounded_retry.2 (fun _ => Outcome.httpError 500) Outcome.timedOut
    (fun _ _ h => Outcome.noConfusion h) (fun _ h => Outcome.noConfusion h)

/-- C10: every `makeRequest` call increments `connectionCount` before the
request runs and decrements it afterwards even when the request throws, so
the count after the call equals the count before it, the in-flight count is
exactly one higher, and — given the `waitForConnection` guard that admits
the call only while the count is below the limit — the count never exceeds
`maxConnections` (5); the underlying result or error is propagated
unchanged. -/
theorem claim_C10_connection_count_balanced (count : Nat) (exec : Except Unit Nat) :
    (makeRequest count exec).finalCount = count ∧
    (makeRequest count exec).duringCount = count + 1 ∧
    (count < maxConnections → (makeRequest count exec).duringCount ≤ maxConnections) ∧
    (makeRequest count exec).result = exec := by
  cases exec with
  | ok r =>
    refine ⟨?_, rfl, ?_, rfl⟩
    · show count + 1 - 1 = count
      omega
    · intro h
      show count + 1 ≤ maxConnections
      exact h
  | error e =>
    refine ⟨?_, rfl, ?_, rfl⟩
    · show count + 1 - 1 = count
      omega
    · intro h
      show count + 1 ≤ maxConnections
      exact h

/-- Witness for C10 at a concrete throwing request with four connections
already active. -/
theorem claim_C10_witness :
    (makeRequest 4 (Except.error ())).finalCount = 4 ∧
    (makeRequest 4 (Except.error ())).duringCount ≤ maxConnections := by
  have h := claim_C10_connection_count_balanced 4 (Except.error ())
  exact ⟨h.1, h.2.2.1 (by decide)⟩

end Frontend
